import Mathlib

/-!
Verification development for the authorization domain model of a layered
CRUD backend ("Network" workspaces with role-based access control).

The definitions below are a shallow embedding of the TypeScript sources:
- `Permission` (valueObjects/Permission.ts): validated (action, resource) pair;
- `Role` (valueObjects/Role.ts): named collection of permissions;
- `Network` (entities/Network.ts): the aggregate root owning members,
  roles and resources.

JavaScript `Map`s are modelled as association lists (`JMap`): `set`
replaces the first entry with the given key in place, or appends a fresh
entry at the end; `delete` removes the entry with the key. A JS `Map`
never holds two entries with the same key, so removing every entry with
the key coincides with removing the single one. Timestamps (`new Date()`)
are modelled by an explicit `now : Nat` argument to each mutator. Thrown
exceptions are modelled with `Except`; a `Network` mutator's error also
carries the aggregate state at the moment of the throw, mirroring the
fact that a JS exception leaves the object with whatever mutations had
already happened.
-/

/-- JavaScript `Map` with string keys, as an association list in insertion
order. -/
def JMap (α : Type) : Type := List (String × α)

instance (α : Type) [DecidableEq α] : DecidableEq (JMap α) :=
  inferInstanceAs (DecidableEq (List (String × α)))

instance (α : Type) : Inhabited (JMap α) := ⟨([] : List (String × α))⟩

instance (α : Type) [Repr α] : Repr (JMap α) :=
  inferInstanceAs (Repr (List (String × α)))

def JMap.empty (α : Type) : JMap α := []

/-- The underlying entry list of the map. -/
def JMap.entries {α : Type} (m : JMap α) : List (String × α) := m

/-- `Map.prototype.get`. -/
def JMap.get {α : Type} : JMap α → String → Option α
  | [], _ => none
  | (k', v) :: rest, k => if k' = k then some v else JMap.get rest k

/-- `Map.prototype.has`. -/
def JMap.has {α : Type} (m : JMap α) (k : String) : Bool :=
  (m.get k).isSome

/-- `Map.prototype.set`: overwrite in place, or append a new entry. -/
def JMap.set {α : Type} : JMap α → String → α → JMap α
  | [], k, v => [(k, v)]
  | (k', v') :: rest, k, v =>
      if k' = k then (k, v) :: rest else (k', v') :: JMap.set rest k v

/-- `Map.prototype.delete` (keys are unique in a JS map, so dropping every
entry with the key is the same as dropping the one entry). -/
def JMap.del {α : Type} (m : JMap α) (k : String) : JMap α :=
  m.filter (fun e => e.1 ≠ k)

/-- `Map.prototype.values`, in insertion order. -/
def JMap.values {α : Type} (m : JMap α) : List α :=
  m.map (·.2)

/-- The keys of the map, in insertion order. -/
def JMap.keys {α : Type} (m : JMap α) : List String :=
  m.map (·.1)

/-- `String.prototype.toUpperCase` (ASCII-faithful). -/
def jsToUpperCase (s : String) : String := ⟨s.data.map Char.toUpper⟩

/-- The whitespace class removed by `String.prototype.trim`. -/
def jsIsWhitespace (c : Char) : Bool :=
  c = ' ' || c = '\t' || c = '\n' || c = '\r' || c = '\x0b' || c = '\x0c'

/-- `String.prototype.trim`: strips leading and trailing whitespace. -/
def jsTrim (s : String) : String :=
  ⟨((s.data.dropWhile jsIsWhitespace).reverse.dropWhile
      jsIsWhitespace).reverse⟩

/-- The test `/^[A-Z_]+$/.test s` used by the validators. -/
def matchesUpperFormat (s : String) : Bool :=
  !s.data.isEmpty && s.data.all (fun c => ('A' ≤ c && c ≤ 'Z') || c = '_')

/-- Spec-side transcription of the regular expression `[A-Z_]+` (full
match): at least one character, each an upper-case letter or underscore.
Stated from the spec to compare with the source-side boolean test. -/
def specUpperFormat (s : String) : Prop :=
  s.data ≠ [] ∧ ∀ c ∈ s.data, ('A' ≤ c ∧ c ≤ 'Z') ∨ c = '_'

instance (s : String) : Decidable (specUpperFormat s) := by
  unfold specUpperFormat
  infer_instance

/-- `PermissionErrorType` enum. -/
inductive PermissionErrorType : Type
  | EMPTY_ACTION
  | INVALID_ACTION_FORMAT
  | EMPTY_RESOURCE
  | INVALID_RESOURCE_FORMAT
  deriving DecidableEq, Repr

/-- `RoleErrorType` enum. -/
inductive RoleErrorType : Type
  | EMPTY_ROLE_NAME
  | INVALID_ROLE_NAME_FORMAT
  | DUPLICATE_PERMISSION
  | PERMISSION_NOT_FOUND
  | DUPLICATE_ROLE
  | ROLE_NOT_FOUND
  | ROLE_IN_USE
  deriving DecidableEq, Repr

/-- `NetworkErrorType` enum. -/
inductive NetworkErrorType : Type
  | EMPTY_NAME
  | MISSING_ADMIN
  | USER_NOT_FOUND
  | USER_ALREADY_IN_NETWORK
  | CANNOT_REMOVE_ADMIN
  | RESOURCE_NOT_FOUND
  deriving DecidableEq, Repr

/-- A domain error thrown by the aggregate: a `NetworkError`, a `RoleError`
or a `PermissionError`. -/
inductive DomainError : Type
  | network (e : NetworkErrorType)
  | role (e : RoleErrorType)
  | permission (e : PermissionErrorType)
  deriving DecidableEq, Repr

/-- The `Permission` value object: fields `_action` and `_resource`. -/
structure Permission : Type where
  action : String
  resource : String
  deriving DecidableEq, Repr

/-- `Permission.validateAction`. -/
def Permission.validateAction (action : String) :
    Except PermissionErrorType String :=
  if action = "" then .error .EMPTY_ACTION
  else
    let upper := jsTrim (jsToUpperCase action)
    if matchesUpperFormat upper then .ok upper
    else .error .INVALID_ACTION_FORMAT

/-- `Permission.validateResource`. -/
def Permission.validateResource (resource : String) :
    Except PermissionErrorType String :=
  if resource = "" then .error .EMPTY_RESOURCE
  else
    let upper := jsTrim (jsToUpperCase resource)
    if matchesUpperFormat upper then .ok upper
    else .error .INVALID_RESOURCE_FORMAT

/-- The `Permission` constructor: validates the action, then the resource. -/
def Permission.construct (action resource : String) :
    Except PermissionErrorType Permission := do
  let a ← Permission.validateAction action
  let r ← Permission.validateResource resource
  pure ⟨a, r⟩

/-- `Permission.equals`: structural comparison of action and resource. -/
def Permission.equals (p other : Permission) : Bool :=
  p.action = other.action && p.resource = other.resource

/-- The `Role` value object: fields `_name` and `_permissions`. -/
structure Role : Type where
  name : String
  permissions : List Permission
  deriving DecidableEq, Repr

/-- `Role.validateName`. -/
def Role.validateName (name : String) : Except RoleErrorType String :=
  if name = "" then .error .EMPTY_ROLE_NAME
  else
    let upper := jsTrim (jsToUpperCase name)
    if matchesUpperFormat upper then .ok upper
    else .error .INVALID_ROLE_NAME_FORMAT

/-- The `Role` constructor: validates the name and shallow-copies the
initial permissions. -/
def Role.construct (name : String) (permissions : List Permission) :
    Except RoleErrorType Role := do
  let n ← Role.validateName name
  pure ⟨n, permissions⟩

/-- `Role.addPermission`. -/
def Role.addPermission (r : Role) (permission : Permission) :
    Except RoleErrorType Role :=
  if r.permissions.any (fun p => p.equals permission) then
    .error .DUPLICATE_PERMISSION
  else .ok ⟨r.name, r.permissions ++ [permission]⟩

/-- `Role.removePermission`: filters out every structural match, then
throws `PERMISSION_NOT_FOUND` when the length did not change. -/
def Role.removePermission (r : Role) (permission : Permission) :
    Except RoleErrorType Role :=
  let before := r.permissions.length
  let filtered := r.permissions.filter (fun p => !(p.equals permission))
  if filtered.length = before then .error .PERMISSION_NOT_FOUND
  else .ok ⟨r.name, filtered⟩

/-- `Role.hasPermission`. -/
def Role.hasPermission (r : Role) (permission : Permission) : Bool :=
  r.permissions.any (fun p => p.equals permission)

/-- `Role.replacePermissions`: swaps the whole list (no dedup check). -/
def Role.replacePermissions (r : Role) (permissions : List Permission) :
    Role :=
  ⟨r.name, permissions⟩

/-- The `User` entity, reduced to the only field the aggregate reads. -/
structure User : Type where
  uuid : String
  deriving DecidableEq, Repr

/-- A `_members` entry: `{ userId, roleId }`. -/
structure Member : Type where
  userId : String
  roleId : String
  deriving DecidableEq, Repr

/-- A `_resources` entry: `{ name, ownerId }`. -/
structure ResourceData : Type where
  name : String
  ownerId : String
  deriving DecidableEq, Repr

/-- The `Network` aggregate root. -/
structure Network : Type where
  uuid : String
  name : String
  adminId : String
  members : JMap Member
  roles : JMap Role
  resources : JMap ResourceData
  createdAt : Nat
  updatedAt : Nat
  deriving DecidableEq, Repr

/-- The `Network` constructor: rejects an empty name, then a missing
admin; otherwise builds the default `ADMIN` role (through the real
`Permission`/`Role` constructors, whose exceptions would propagate) and
registers the admin as its first member. Both timestamps are `now`. -/
def Network.construct (uuid nm : String) (admin : Option User) (now : Nat) :
    Except DomainError Network :=
  if nm = "" then .error (.network .EMPTY_NAME)
  else
    match admin with
    | none => .error (.network .MISSING_ADMIN)
    | some a => do
        let pRead ← (Permission.construct "READ" "ALL").mapError .permission
        let pWrite ← (Permission.construct "WRITE" "ALL").mapError .permission
        let pDel ← (Permission.construct "DELETE" "ALL").mapError .permission
        let adminRole ←
          (Role.construct "ADMIN" [pRead, pWrite, pDel]).mapError .role
        pure
          { uuid := uuid
            name := nm
            adminId := a.uuid
            members := (JMap.empty Member).set a.uuid ⟨a.uuid, "ADMIN"⟩
            roles := (JMap.empty Role).set "ADMIN" adminRole
            resources := JMap.empty ResourceData
            createdAt := now
            updatedAt := now }

/-- `Network.isAdmin`. -/
def Network.isAdmin (n : Network) (user : User) : Bool :=
  n.adminId = user.uuid

/-- `Network.addRole`. The error carries the state at the throw. -/
def Network.addRole (n : Network) (role : Role) (now : Nat) :
    Except (DomainError × Network) Network :=
  if n.roles.has role.name then .error (.role .DUPLICATE_ROLE, n)
  else .ok { n with roles := n.roles.set role.name role, updatedAt := now }

/-- `Network.updateRole`: replaces the `Role` object stored under the key
`roleName` wholesale (the new role's own name is not inspected). -/
def Network.updateRole (n : Network) (roleName : String) (newRole : Role)
    (now : Nat) : Except (DomainError × Network) Network :=
  if !n.roles.has roleName then .error (.role .ROLE_NOT_FOUND, n)
  else .ok { n with roles := n.roles.set roleName newRole, updatedAt := now }

/-- `Network.removeRole`: absent key, then in-use check over the members,
then deletion. -/
def Network.removeRole (n : Network) (roleName : String) (now : Nat) :
    Except (DomainError × Network) Network :=
  if !n.roles.has roleName then .error (.role .ROLE_NOT_FOUND, n)
  else if n.members.values.any (fun m => m.roleId = roleName) then
    .error (.role .ROLE_IN_USE, n)
  else .ok { n with roles := n.roles.del roleName, updatedAt := now }

/-- `Network.assignRoleToUser`: looks the role up under the upper-cased
name, requires the user to already be a member, then stores the found
role's own name as the member's `roleId`. -/
def Network.assignRoleToUser (n : Network) (user : User) (roleName : String)
    (now : Nat) : Except (DomainError × Network) Network :=
  match n.roles.get (jsToUpperCase roleName) with
  | none => .error (.role .ROLE_NOT_FOUND, n)
  | some role =>
      if !n.members.has user.uuid then
        .error (.network .USER_NOT_FOUND, n)
      else
        .ok { n with
              members := n.members.set user.uuid ⟨user.uuid, role.name⟩
              updatedAt := now }

/-- `Network.addMember`: duplicate-member check, role lookup under the
upper-cased name, then insertion with the found role's own name. -/
def Network.addMember (n : Network) (user : User) (roleName : String)
    (now : Nat) : Except (DomainError × Network) Network :=
  if n.members.has user.uuid then
    .error (.network .USER_ALREADY_IN_NETWORK, n)
  else
    match n.roles.get (jsToUpperCase roleName) with
    | none => .error (.role .ROLE_NOT_FOUND, n)
    | some role =>
        .ok { n with
              members := n.members.set user.uuid ⟨user.uuid, role.name⟩
              updatedAt := now }

/-- `Network.removeMember`: the admin guard runs before the membership
check. -/
def Network.removeMember (n : Network) (user : User) (now : Nat) :
    Except (DomainError × Network) Network :=
  if user.uuid = n.adminId then
    .error (.network .CANNOT_REMOVE_ADMIN, n)
  else if !n.members.has user.uuid then
    .error (.network .USER_NOT_FOUND, n)
  else .ok { n with members := n.members.del user.uuid, updatedAt := now }

/-- `Network.canUser`: never throws; false for a non-member or a dangling
role id, otherwise delegates to `Role.hasPermission`. -/
def Network.canUser (n : Network) (user : User) (permission : Permission) :
    Bool :=
  match n.members.get user.uuid with
  | none => false
  | some member =>
      match n.roles.get member.roleId with
      | none => false
      | some role => role.hasPermission permission

/-- `Network.canAccessResource`: unknown resource is false; the owner
bypasses every check; otherwise `new Permission("READ", resourceId)` is
built (its validation may throw) and `canUser` decides. -/
def Network.canAccessResource (n : Network) (user : User)
    (resourceId : String) : Except DomainError Bool :=
  match n.resources.get resourceId with
  | none => .ok false
  | some resource =>
      if resource.ownerId = user.uuid then .ok true
      else
        match Permission.construct "READ" resourceId with
        | .error e => .error (.permission e)
        | .ok readPermission => .ok (n.canUser user readPermission)

/-- `Network.addResource`: unconditional insert/overwrite; never throws. -/
def Network.addResource (n : Network) (resourceId nm : String) (owner : User)
    (now : Nat) : Network :=
  { n with resources := n.resources.set resourceId ⟨nm, owner.uuid⟩
           updatedAt := now }

/-- `Network.removeResource`. -/
def Network.removeResource (n : Network) (resourceId : String) (now : Nat) :
    Except (DomainError × Network) Network :=
  if !n.resources.has resourceId then
    .error (.network .RESOURCE_NOT_FOUND, n)
  else .ok { n with resources := n.resources.del resourceId, updatedAt := now }

instance {ε α : Type} [DecidableEq ε] [DecidableEq α] :
    DecidableEq (Except ε α)
  | .error a, .error b =>
      if h : a = b then .isTrue (congrArg Except.error h)
      else .isFalse (fun hc => h (by injection hc))
  | .error _, .ok _ => .isFalse (fun hc => Except.noConfusion hc)
  | .ok _, .error _ => .isFalse (fun hc => Except.noConfusion hc)
  | .ok a, .ok b =>
      if h : a = b then .isTrue (congrArg Except.ok h)
      else .isFalse (fun hc => h (by injection hc))

/-- One public mutator call on the aggregate, with its arguments and the
wall-clock instant at which it runs. -/
inductive MCall : Type
  | addRole (role : Role) (now : Nat)
  | updateRole (roleName : String) (newRole : Role) (now : Nat)
  | removeRole (roleName : String) (now : Nat)
  | addMember (user : User) (roleName : String) (now : Nat)
  | removeMember (user : User) (now : Nat)
  | assignRoleToUser (user : User) (roleName : String) (now : Nat)
  | addResource (resourceId nm : String) (owner : User) (now : Nat)
  | removeResource (resourceId : String) (now : Nat)
  deriving DecidableEq, Repr

/-- Dispatch one call to the corresponding aggregate method. -/
def Network.applyCall (n : Network) : MCall → Except (DomainError × Network) Network
  | .addRole role now => n.addRole role now
  | .updateRole roleName newRole now => n.updateRole roleName newRole now
  | .removeRole roleName now => n.removeRole roleName now
  | .addMember user roleName now => n.addMember user roleName now
  | .removeMember user now => n.removeMember user now
  | .assignRoleToUser user roleName now => n.assignRoleToUser user roleName now
  | .addResource resourceId nm owner now => .ok (n.addResource resourceId nm owner now)
  | .removeResource resourceId now => n.removeResource resourceId now

/-- Run a sequence of mutator calls; stop at the first thrown error. -/
def Network.runCalls (n : Network) : List MCall → Except (DomainError × Network) Network
  | [] => .ok n
  | c :: cs =>
      match n.applyCall c with
      | .error e => .error e
      | .ok n' => n'.runCalls cs

/-- Calls kept by the amended invariant claim: everything except
`updateRole`, and except reassigning the admin user itself. -/
def MCall.allowedC1 (adminId : String) : MCall → Bool
  | .updateRole _ _ _ => false
  | .assignRoleToUser user _ _ => user.uuid ≠ adminId
  | _ => true

/-- The role the `Network` constructor installs under the key `ADMIN`. -/
def adminDefaultRole : Role :=
  ⟨"ADMIN", [⟨"READ", "ALL"⟩, ⟨"WRITE", "ALL"⟩, ⟨"DELETE", "ALL"⟩]⟩

/-- Claim invariant (a): some role in the map is named `ADMIN` and holds
at least the read/write/delete-on-`ALL` permissions. -/
def Network.invAdminRole (n : Network) : Bool :=
  n.roles.values.any (fun r =>
    r.name == "ADMIN" && r.hasPermission ⟨"READ", "ALL"⟩ &&
    r.hasPermission ⟨"WRITE", "ALL"⟩ && r.hasPermission ⟨"DELETE", "ALL"⟩)

/-- Claim invariant (b): `adminId` is a member and its role id is `ADMIN`. -/
def Network.invAdminMember (n : Network) : Bool :=
  match n.members.get n.adminId with
  | some m => m.roleId == "ADMIN"
  | none => false

/-- Claim invariant (c): every member's role id is a key of `roles`. -/
def Network.invMembersClosed (n : Network) : Bool :=
  n.members.values.all (fun m => n.roles.has m.roleId)

/-- No string occurs twice in the list. -/
def distinctStrings : List String → Bool
  | [] => true
  | x :: xs => !(xs.contains x) && distinctStrings xs

/-- Claim invariant (d): the names of the stored roles are unique. -/
def Network.invRoleNames (n : Network) : Bool :=
  distinctStrings (n.roles.values.map (fun r => r.name))

/-- The conjunction of the four invariants of the claim. -/
def Network.claimInvC1 (n : Network) : Bool :=
  n.invAdminRole && n.invAdminMember && n.invMembersClosed && n.invRoleNames

/-- Strengthened invariant that is actually inductive for the amended
call set: map keys are unique, every role sits under its own name, the
`ADMIN` key still holds the constructor's role, the admin is a member
with role id `ADMIN`, and every member's role id is a key. -/
structure Network.NetWF (n : Network) : Prop where
  rolesKeysNodup : n.roles.keys.Nodup
  membersKeysNodup : n.members.keys.Nodup
  roleNameKey : ∀ e ∈ n.roles.entries, e.2.name = e.1
  adminRole : n.roles.get "ADMIN" = some adminDefaultRole
  adminMember : n.members.get n.adminId = some ⟨n.adminId, "ADMIN"⟩
  membersClosed : ∀ m ∈ n.members.values, n.roles.has m.roleId = true

/-- Network of Scenario A: freshly constructed with admin `u1`. -/
def netA : Network :=
  { uuid := "n1", name := "WardA", adminId := "u1"
    members := [("u1", ⟨"u1", "ADMIN"⟩)]
    roles := [("ADMIN", adminDefaultRole)]
    resources := []
    createdAt := 0, updatedAt := 0 }

/-- An empty `NURSE` role. -/
def nurseRole : Role := ⟨"NURSE", []⟩

/-- An empty `DOCTOR` role. -/
def docRole : Role := ⟨"DOCTOR", []⟩

/-- `netA` after `updateRole("ADMIN", Role("NURSE", []))`. -/
def netB : Network :=
  { netA with roles := [("ADMIN", nurseRole)], updatedAt := 1 }

/-- `netA` after `addRole(Role("NURSE", []))`. -/
def netC : Network :=
  { netA with
    roles := [("ADMIN", adminDefaultRole), ("NURSE", nurseRole)]
    updatedAt := 1 }

/-- `netC` after `assignRoleToUser(u1, "NURSE")`: the admin reassigned. -/
def netD : Network :=
  { netC with members := [("u1", ⟨"u1", "NURSE"⟩)], updatedAt := 2 }

/-- `netD` after `removeRole("ADMIN")`: the `ADMIN` role is gone. -/
def netE : Network :=
  { netD with roles := [("NURSE", nurseRole)], updatedAt := 3 }

/-- Network of Scenario B: `netC` after `addMember(u2, "NURSE")`. -/
def netNurse : Network :=
  { netC with
    members := [("u1", ⟨"u1", "ADMIN"⟩), ("u2", ⟨"u2", "NURSE"⟩)]
    updatedAt := 2 }

/-- `netC` after `updateRole("NURSE", Role("DOCTOR", []))`: the key
`NURSE` now stores a role named `DOCTOR`. -/
def netCD : Network :=
  { netA with
    roles := [("ADMIN", adminDefaultRole), ("NURSE", docRole)]
    updatedAt := 2 }

/-- `netCD` after `addMember(u2, "NURSE")`: the member's role id is the
stored role's own name, `DOCTOR`. -/
def netCD2 : Network :=
  { netCD with
    members := [("u1", ⟨"u1", "ADMIN"⟩), ("u2", ⟨"u2", "DOCTOR"⟩)]
    updatedAt := 3 }

/-- A role holding only the `READ`-on-`ALL` permission. -/
def viewerRole : Role := ⟨"VIEWER", [⟨"READ", "ALL"⟩]⟩

/-- `netA` after `addRole(viewerRole)`. -/
def netV : Network :=
  { netA with
    roles := [("ADMIN", adminDefaultRole), ("VIEWER", viewerRole)]
    updatedAt := 1 }

/-- `netV` after `addMember(u2, "VIEWER")`. -/
def netV2 : Network :=
  { netV with
    members := [("u1", ⟨"u1", "ADMIN"⟩), ("u2", ⟨"u2", "VIEWER"⟩)]
    updatedAt := 2 }

/-- `netA` after `addResource("DOC", "file", u3)`. -/
def netR : Network :=
  { netA with resources := [("DOC", ⟨"file", "u3"⟩)], updatedAt := 1 }

/-! ### Lemmas about the JS map model -/

theorem JMap.get_set_self {α : Type} (m : JMap α) (k : String) (v : α) :
    (m.set k v).get k = some v := by
  induction m with
  | nil => simp [JMap.set, JMap.get]
  | cons e rest ih =>
      obtain ⟨k1, v1⟩ := e
      by_cases h : k1 = k
      · simp [JMap.set, JMap.get, h]
      · simp [JMap.set, JMap.get, h, ih]

theorem JMap.get_set_ne {α : Type} (m : JMap α) (k k' : String) (v : α)
    (h : k' ≠ k) : (m.set k' v).get k = m.get k := by
  induction m with
  | nil => simp [JMap.set, JMap.get, h]
  | cons e rest ih =>
      obtain ⟨k1, v1⟩ := e
      by_cases he : k1 = k'
      · subst he
        simp [JMap.set, JMap.get, h]
      · simp only [JMap.set, if_neg he]
        by_cases hk : k1 = k
        · simp [JMap.get, hk]
        · simp [JMap.get, hk, ih]

theorem JMap.get_del_self {α : Type} (m : JMap α) (k : String) :
    (m.del k).get k = none := by
  induction m with
  | nil => simp [JMap.del, JMap.get]
  | cons e rest ih =>
      obtain ⟨k1, v1⟩ := e
      by_cases h : k1 = k
      · simpa [JMap.del, JMap.get, h] using ih
      · simpa [JMap.del, JMap.get, h] using ih

theorem JMap.get_del_ne {α : Type} (m : JMap α) (k k' : String)
    (h : k' ≠ k) : (m.del k').get k = m.get k := by
  induction m with
  | nil => simp [JMap.del, JMap.get]
  | cons e rest ih =>
      obtain ⟨k1, v1⟩ := e
      by_cases he : k1 = k'
      · subst he
        have hne : k1 ≠ k := h
        simpa [JMap.del, JMap.get, hne] using ih
      · by_cases hk : k1 = k
        · subst hk
          simp [JMap.del, JMap.get, he]
        · simpa [JMap.del, JMap.get, he, hk] using ih

theorem JMap.get_mem_values {α : Type} (m : JMap α) (k : String) (v : α)
    (h : m.get k = some v) : v ∈ m.values := by
  induction m with
  | nil => simp [JMap.get] at h
  | cons e rest ih =>
      obtain ⟨k1, v1⟩ := e
      by_cases he : k1 = k
      · simp only [JMap.get, if_pos he] at h
        cases h
        simp [JMap.values]
      · simp only [JMap.get, if_neg he] at h
        simp only [JMap.values, List.map_cons, List.mem_cons]
        exact Or.inr (ih h)

theorem JMap.get_mem_entries {α : Type} (m : JMap α) (k : String) (v : α)
    (h : m.get k = some v) : (k, v) ∈ m.entries := by
  induction m with
  | nil => simp [JMap.get] at h
  | cons e rest ih =>
      obtain ⟨k1, v1⟩ := e
      by_cases he : k1 = k
      · subst he
        simp only [JMap.get, if_pos rfl] at h
        cases h
        exact List.mem_cons_self _ _
      · simp only [JMap.get, if_neg he] at h
        exact List.mem_cons_of_mem _ (ih h)

theorem JMap.mem_values_set {α : Type} (m : JMap α) (k : String) (v a : α)
    (h : a ∈ (m.set k v).values) : a ∈ m.values ∨ a = v := by
  induction m with
  | nil => simpa [JMap.set, JMap.values] using h
  | cons e rest ih =>
      obtain ⟨k1, v1⟩ := e
      by_cases he : k1 = k
      · simp only [JMap.set, if_pos he, JMap.values, List.map_cons,
          List.mem_cons] at h ⊢
        rcases h with h | h
        · exact Or.inr h
        · exact Or.inl (Or.inr h)
      · simp only [JMap.set, if_neg he, JMap.values, List.map_cons,
          List.mem_cons] at h ⊢
        rcases h with h | h
        · exact Or.inl (Or.inl h)
        · rcases ih h with h2 | h2
          · exact Or.inl (Or.inr h2)
          · exact Or.inr h2

theorem JMap.mem_values_del {α : Type} (m : JMap α) (k : String) (a : α)
    (h : a ∈ (m.del k).values) : a ∈ m.values := by
  simp only [JMap.del, JMap.values] at h ⊢
  rcases List.mem_map.1 h with ⟨e, he, rfl⟩
  exact List.mem_map.2 ⟨e, (List.filter_sublist m).subset he, rfl⟩

theorem JMap.mem_entries_set {α : Type} (m : JMap α) (k : String) (v : α)
    (e : String × α) (h : e ∈ (m.set k v).entries) :
    e ∈ m.entries ∨ e = (k, v) := by
  induction m with
  | nil => simpa [JMap.set, JMap.entries] using h
  | cons e1 rest ih =>
      obtain ⟨k1, v1⟩ := e1
      by_cases he : k1 = k
      · simp only [JMap.set, if_pos he, JMap.entries, List.mem_cons]
          at h ⊢
        rcases h with h | h
        · exact Or.inr h
        · exact Or.inl (Or.inr h)
      · simp only [JMap.set, if_neg he, JMap.entries, List.mem_cons]
          at h ⊢
        rcases h with h | h
        · exact Or.inl (Or.inl h)
        · rcases ih h with h2 | h2
          · exact Or.inl (Or.inr h2)
          · exact Or.inr h2

theorem JMap.mem_entries_del {α : Type} (m : JMap α) (k : String)
    (e : String × α) (h : e ∈ (m.del k).entries) : e ∈ m.entries :=
  (List.filter_sublist m).subset h

theorem JMap.has_set_of_has {α : Type} (m : JMap α) (k k' : String) (v : α)
    (h : m.has k = true) : (m.set k' v).has k = true := by
  by_cases hk : k' = k
  · subst hk
    simp [JMap.has, JMap.get_set_self]
  · simpa [JMap.has, JMap.get_set_ne m k k' v hk] using h

theorem JMap.keys_set_of_not_has {α : Type} (m : JMap α) (k : String)
    (v : α) (h : m.has k = false) : (m.set k v).keys = m.keys ++ [k] := by
  induction m with
  | nil => simp [JMap.set, JMap.keys]
  | cons e rest ih =>
      obtain ⟨k1, v1⟩ := e
      by_cases he : k1 = k
      · exfalso
        simp [JMap.has, JMap.get, he] at h
      · simp only [JMap.has, JMap.get, if_neg he] at h
        have ih2 := ih h
        simp only [JMap.keys] at ih2
        simp [JMap.set, JMap.keys, he, ih2]

theorem JMap.keys_set_of_has {α : Type} (m : JMap α) (k : String) (v : α)
    (h : m.has k = true) : (m.set k v).keys = m.keys := by
  induction m with
  | nil => simp [JMap.has, JMap.get] at h
  | cons e rest ih =>
      obtain ⟨k1, v1⟩ := e
      by_cases he : k1 = k
      · simp [JMap.set, JMap.keys, he]
      · simp only [JMap.has, JMap.get, if_neg he] at h
        have ih2 := ih h
        simp only [JMap.keys] at ih2
        simp [JMap.set, JMap.keys, he, ih2]

theorem JMap.keys_del_sublist {α : Type} (m : JMap α) (k : String) :
    (m.del k).keys.Sublist m.keys :=
  (List.filter_sublist m).map _

theorem JMap.has_of_get {α : Type} (m : JMap α) (k : String) (v : α)
    (h : m.get k = some v) : m.has k = true := by
  simp [JMap.has, h]

theorem JMap.has_of_mem_keys {α : Type} (m : JMap α) (k : String)
    (h : k ∈ m.keys) : m.has k = true := by
  induction m with
  | nil => simp [JMap.keys] at h
  | cons e rest ih =>
      obtain ⟨k1, v1⟩ := e
      by_cases he : k1 = k
      · simp [JMap.has, JMap.get, he]
      · simp only [JMap.keys, List.map_cons, List.mem_cons] at h
        rcases h with h | h
        · exact absurd h.symm he
        · simpa [JMap.has, JMap.get, he] using ih h

theorem JMap.not_mem_keys_of_not_has {α : Type} (m : JMap α) (k : String)
    (h : m.has k = false) : k ∉ m.keys := by
  intro hk
  rw [JMap.has_of_mem_keys m k hk] at h
  simp at h

/-! ### Lemmas about permissions, roles and the invariants -/

theorem Permission.equals_iff (p q : Permission) :
    p.equals q = true ↔ p = q := by
  cases p
  cases q
  simp [Permission.equals, Permission.mk.injEq]

theorem Role.hasPermission_iff (r : Role) (p : Permission) :
    r.hasPermission p = true ↔ p ∈ r.permissions := by
  simp [Role.hasPermission, List.any_eq_true, Permission.equals_iff]

theorem distinctStrings_of_nodup (l : List String) (h : l.Nodup) :
    distinctStrings l = true := by
  induction l with
  | nil => rfl
  | cons x xs ih =>
      rcases List.nodup_cons.1 h with ⟨hx, hxs⟩
      simp [distinctStrings, ih hxs, List.elem_iff, hx]

theorem values_names_eq_keys (m : JMap Role)
    (h : ∀ e ∈ m.entries, e.2.name = e.1) :
    m.values.map (fun r => r.name) = m.keys := by
  induction m with
  | nil => rfl
  | cons e rest ih =>
      obtain ⟨k1, r1⟩ := e
      have h1 : r1.name = k1 := h (k1, r1) (List.mem_cons_self _ _)
      have h2 : ∀ e ∈ JMap.entries rest, e.2.name = e.1 :=
        fun e he => h e (List.mem_cons_of_mem _ he)
      have ih2 := ih h2
      simp only [JMap.values, JMap.keys, List.map_cons] at ih2 ⊢
      rw [h1, ih2]

/-! ### The constructor establishes the strengthened invariant -/

theorem Network.construct_ok (uuid nm : String) (a : User) (now : Nat)
    (hnm : nm ≠ "") :
    Network.construct uuid nm (some a) now = .ok
      { uuid := uuid, name := nm, adminId := a.uuid
        members := [(a.uuid, ⟨a.uuid, "ADMIN"⟩)]
        roles := [("ADMIN", adminDefaultRole)]
        resources := []
        createdAt := now, updatedAt := now } := by
  unfold Network.construct
  rw [if_neg hnm]
  rfl

theorem Network.construct_netWF (uuid nm : String) (a : User) (now : Nat)
    (n : Network) (h : Network.construct uuid nm (some a) now = .ok n) :
    n.NetWF ∧ n.adminId = a.uuid := by
  by_cases hnm : nm = ""
  · rw [hnm] at h
    simp [Network.construct] at h
  · rw [Network.construct_ok uuid nm a now hnm] at h
    injection h with h
    subst h
    refine ⟨⟨?_, ?_, ?_, ?_, ?_, ?_⟩, rfl⟩
    · simp [JMap.keys]
    · simp [JMap.keys]
    · intro e he
      simp only [JMap.entries, List.mem_singleton] at he
      subst he
      rfl
    · rfl
    · simp [JMap.get]
    · intro m hm
      simp only [JMap.values, List.map_cons, List.map_nil,
        List.mem_singleton] at hm
      subst hm
      rfl

/-! ### Each allowed mutator preserves the strengthened invariant -/

theorem Network.NetWF.addRole_pres {n n' : Network} (wf : n.NetWF)
    (role : Role) (now : Nat) (h : n.addRole role now = .ok n') :
    n'.NetWF ∧ n'.adminId = n.adminId := by
  cases hh : n.roles.has role.name with
  | true => simp [Network.addRole, hh] at h
  | false =>
      simp only [Network.addRole, hh, Bool.false_eq_true, if_false,
        Except.ok.injEq] at h
      subst h
      have hname : role.name ≠ "ADMIN" := by
        intro he
        rw [he] at hh
        rw [JMap.has_of_get _ _ _ wf.adminRole] at hh
        cases hh
      refine ⟨⟨?_, ?_, ?_, ?_, ?_, ?_⟩, rfl⟩
      · show ((n.roles.set role.name role).keys).Nodup
        rw [JMap.keys_set_of_not_has _ _ _ hh]
        refine List.Nodup.append wf.rolesKeysNodup (List.nodup_singleton _) ?_
        intro x hx hx1
        rw [List.mem_singleton] at hx1
        subst hx1
        exact JMap.not_mem_keys_of_not_has _ _ hh hx
      · exact wf.membersKeysNodup
      · intro e he
        rcases JMap.mem_entries_set _ _ _ _ he with h2 | h2
        · exact wf.roleNameKey e h2
        · subst h2
          rfl
      · show (n.roles.set role.name role).get "ADMIN" = some adminDefaultRole
        rw [JMap.get_set_ne _ _ _ _ hname]
        exact wf.adminRole
      · exact wf.adminMember
      · intro m hm
        exact JMap.has_set_of_has _ _ _ _ (wf.membersClosed m hm)

theorem Network.NetWF.removeRole_pres {n n' : Network} (wf : n.NetWF)
    (roleName : String) (now : Nat) (h : n.removeRole roleName now = .ok n') :
    n'.NetWF ∧ n'.adminId = n.adminId := by
  cases hh : n.roles.has roleName with
  | false => simp [Network.removeRole, hh] at h
  | true =>
      cases hu : n.members.values.any (fun m => m.roleId = roleName) with
      | true => simp [Network.removeRole, hh, hu] at h
      | false =>
          simp only [Network.removeRole, hh, hu, Bool.not_true,
            Bool.false_eq_true, if_false, Except.ok.injEq] at h
          subst h
          have hadm : ⟨n.adminId, "ADMIN"⟩ ∈ n.members.values :=
            JMap.get_mem_values _ _ _ wf.adminMember
          have hne : roleName ≠ "ADMIN" := by
            intro he
            subst he
            have htrue : (n.members.values.any
                fun m => m.roleId = "ADMIN") = true :=
              List.any_eq_true.2 ⟨⟨n.adminId, "ADMIN"⟩, hadm, by simp⟩
            rw [hu] at htrue
            cases htrue
          refine ⟨⟨?_, ?_, ?_, ?_, ?_, ?_⟩, rfl⟩
          · exact (JMap.keys_del_sublist _ _).nodup wf.rolesKeysNodup
          · exact wf.membersKeysNodup
          · intro e he
            exact wf.roleNameKey e (JMap.mem_entries_del _ _ _ he)
          · show (n.roles.del roleName).get "ADMIN" = some adminDefaultRole
            rw [JMap.get_del_ne _ _ _ hne]
            exact wf.adminRole
          · exact wf.adminMember
          · intro m hm
            have hmm : roleName ≠ m.roleId := by
              intro he
              have htrue : (n.members.values.any
                  fun x => x.roleId = roleName) = true :=
                List.any_eq_true.2 ⟨m, hm, by simp [he]⟩
              rw [hu] at htrue
              cases htrue
            show ((n.roles.del roleName).get m.roleId).isSome = true
            rw [JMap.get_del_ne _ _ _ hmm]
            exact wf.membersClosed m hm

theorem Network.NetWF.addMember_pres {n n' : Network} (wf : n.NetWF)
    (user : User) (roleName : String) (now : Nat)
    (h : n.addMember user roleName now = .ok n') :
    n'.NetWF ∧ n'.adminId = n.adminId := by
  cases hh : n.members.has user.uuid with
  | true => simp [Network.addMember, hh] at h
  | false =>
      cases hg : n.roles.get (jsToUpperCase roleName) with
      | none => simp [Network.addMember, hh, hg] at h
      | some role =>
          simp only [Network.addMember, hh, hg, Bool.false_eq_true,
            if_false, Except.ok.injEq] at h
          subst h
          have hadmne : user.uuid ≠ n.adminId := by
            intro he
            rw [he, JMap.has_of_get _ _ _ wf.adminMember] at hh
            cases hh
          have hkey : role.name = jsToUpperCase roleName :=
            wf.roleNameKey _ (JMap.get_mem_entries _ _ _ hg)
          refine ⟨⟨?_, ?_, ?_, ?_, ?_, ?_⟩, rfl⟩
          · exact wf.rolesKeysNodup
          · show ((n.members.set user.uuid ⟨user.uuid, role.name⟩).keys).Nodup
            rw [JMap.keys_set_of_not_has _ _ _ hh]
            refine List.Nodup.append wf.membersKeysNodup
              (List.nodup_singleton _) ?_
            intro x hx hx1
            rw [List.mem_singleton] at hx1
            subst hx1
            exact JMap.not_mem_keys_of_not_has _ _ hh hx
          · exact wf.roleNameKey
          · exact wf.adminRole
          · show (n.members.set user.uuid ⟨user.uuid, role.name⟩).get
                n.adminId = some ⟨n.adminId, "ADMIN"⟩
            rw [JMap.get_set_ne _ _ _ _ hadmne]
            exact wf.adminMember
          · intro m hm
            rcases JMap.mem_values_set _ _ _ _ hm with h2 | h2
            · exact wf.membersClosed m h2
            · subst h2
              show (n.roles.get role.name).isSome = true
              rw [hkey]
              simp [hg]

theorem Network.NetWF.removeMember_pres {n n' : Network} (wf : n.NetWF)
    (user : User) (now : Nat) (h : n.removeMember user now = .ok n') :
    n'.NetWF ∧ n'.adminId = n.adminId := by
  by_cases ha : user.uuid = n.adminId
  · simp [Network.removeMember, ha] at h
  · cases hh : n.members.has user.uuid with
    | false => simp [Network.removeMember, ha, hh] at h
    | true =>
        simp only [Network.removeMember, ha, hh, Bool.not_true,
          Bool.false_eq_true, if_false, if_neg ha, Except.ok.injEq] at h
        subst h
        refine ⟨⟨?_, ?_, ?_, ?_, ?_, ?_⟩, rfl⟩
        · exact wf.rolesKeysNodup
        · exact (JMap.keys_del_sublist _ _).nodup wf.membersKeysNodup
        · exact wf.roleNameKey
        · exact wf.adminRole
        · show (n.members.del user.uuid).get n.adminId =
              some ⟨n.adminId, "ADMIN"⟩
          rw [JMap.get_del_ne _ _ _ ha]
          exact wf.adminMember
        · intro m hm
          exact wf.membersClosed m (JMap.mem_values_del _ _ _ hm)

theorem Network.NetWF.assignRole_pres {n n' : Network} (wf : n.NetWF)
    (user : User) (roleName : String) (now : Nat)
    (hadm : user.uuid ≠ n.adminId)
    (h : n.assignRoleToUser user roleName now = .ok n') :
    n'.NetWF ∧ n'.adminId = n.adminId := by
  cases hg : n.roles.get (jsToUpperCase roleName) with
  | none => simp [Network.assignRoleToUser, hg] at h
  | some role =>
      cases hh : n.members.has user.uuid with
      | false => simp [Network.assignRoleToUser, hg, hh] at h
      | true =>
          simp only [Network.assignRoleToUser, hg, hh, Bool.not_true,
            Bool.false_eq_true, if_false, Except.ok.injEq] at h
          subst h
          have hkey : role.name = jsToUpperCase roleName :=
            wf.roleNameKey _ (JMap.get_mem_entries _ _ _ hg)
          refine ⟨⟨?_, ?_, ?_, ?_, ?_, ?_⟩, rfl⟩
          · exact wf.rolesKeysNodup
          · show ((n.members.set user.uuid ⟨user.uuid, role.name⟩).keys).Nodup
            rw [JMap.keys_set_of_has _ _ _ hh]
            exact wf.membersKeysNodup
          · exact wf.roleNameKey
          · exact wf.adminRole
          · show (n.members.set user.uuid ⟨user.uuid, role.name⟩).get
                n.adminId = some ⟨n.adminId, "ADMIN"⟩
            rw [JMap.get_set_ne _ _ _ _ hadm]
            exact wf.adminMember
          · intro m hm
            rcases JMap.mem_values_set _ _ _ _ hm with h2 | h2
            · exact wf.membersClosed m h2
            · subst h2
              show (n.roles.get role.name).isSome = true
              rw [hkey]
              simp [hg]

theorem Network.NetWF.addResource_pres {n : Network} (wf : n.NetWF)
    (resourceId nm : String) (owner : User) (now : Nat) :
    (n.addResource resourceId nm owner now).NetWF ∧
      (n.addResource resourceId nm owner now).adminId = n.adminId := by
  refine ⟨⟨?_, ?_, ?_, ?_, ?_, ?_⟩, rfl⟩
  · exact wf.rolesKeysNodup
  · exact wf.membersKeysNodup
  · exact wf.roleNameKey
  · exact wf.adminRole
  · exact wf.adminMember
  · intro m hm
    exact wf.membersClosed m hm

theorem Network.NetWF.removeResource_pres {n n' : Network} (wf : n.NetWF)
    (resourceId : String) (now : Nat)
    (h : n.removeResource resourceId now = .ok n') :
    n'.NetWF ∧ n'.adminId = n.adminId := by
  cases hh : n.resources.has resourceId with
  | false => simp [Network.removeResource, hh] at h
  | true =>
      simp only [Network.removeResource, hh, Bool.not_true,
        Bool.false_eq_true, if_false, Except.ok.injEq] at h
      subst h
      refine ⟨⟨?_, ?_, ?_, ?_, ?_, ?_⟩, rfl⟩
      · exact wf.rolesKeysNodup
      · exact wf.membersKeysNodup
      · exact wf.roleNameKey
      · exact wf.adminRole
      · exact wf.adminMember
      · intro m hm
        exact wf.membersClosed m hm

theorem Network.NetWF.applyCall_pres {n n' : Network} (wf : n.NetWF)
    (c : MCall) (hc : c.allowedC1 n.adminId = true)
    (h : n.applyCall c = .ok n') : n'.NetWF ∧ n'.adminId = n.adminId := by
  cases c with
  | addRole role now => exact wf.addRole_pres role now h
  | updateRole roleName newRole now => cases hc
  | removeRole roleName now => exact wf.removeRole_pres roleName now h
  | addMember user roleName now => exact wf.addMember_pres user roleName now h
  | removeMember user now => exact wf.removeMember_pres user now h
  | assignRoleToUser user roleName now =>
      have hadm : user.uuid ≠ n.adminId := by
        simpa [MCall.allowedC1] using hc
      exact wf.assignRole_pres user roleName now hadm h
  | addResource resourceId nm owner now =>
      have h2 := wf.addResource_pres resourceId nm owner now
      have : n' = n.addResource resourceId nm owner now := by
        simpa [Network.applyCall] using h.symm
      rw [this]
      exact h2
  | removeResource resourceId now => exact wf.removeResource_pres resourceId now h

theorem Network.NetWF.runCalls_pres (cs : List MCall) :
    ∀ {n n' : Network}, n.NetWF →
      (∀ c ∈ cs, c.allowedC1 n.adminId = true) →
      n.runCalls cs = .ok n' →
      n'.NetWF ∧ n'.adminId = n.adminId := by
  induction cs with
  | nil =>
      intro n n' wf hcs h
      simp only [Network.runCalls, Except.ok.injEq] at h
      subst h
      exact ⟨wf, rfl⟩
  | cons c cs ih =>
      intro n n' wf hcs h
      simp only [Network.runCalls] at h
      cases hap : n.applyCall c with
      | error e => rw [hap] at h; cases h
      | ok n1 =>
          rw [hap] at h
          have h1 := wf.applyCall_pres c (hcs c (List.mem_cons_self _ _)) hap
          have hcs1 : ∀ c' ∈ cs, c'.allowedC1 n1.adminId = true := by
            intro c' hc'
            rw [h1.2]
            exact hcs c' (List.mem_cons_of_mem _ hc')
          have h2 := ih h1.1 hcs1 h
          exact ⟨h2.1, h2.2.trans h1.2⟩

theorem Network.claimInv_of_netWF {n : Network} (wf : n.NetWF) :
    n.claimInvC1 = true := by
  have ha : n.invAdminRole = true := by
    have hmem := JMap.get_mem_values _ _ _ wf.adminRole
    simp only [Network.invAdminRole, List.any_eq_true]
    exact ⟨adminDefaultRole, hmem, by decide⟩
  have hb : n.invAdminMember = true := by
    simp [Network.invAdminMember, wf.adminMember]
  have hc : n.invMembersClosed = true := by
    simp only [Network.invMembersClosed, List.all_eq_true]
    exact fun m hm => wf.membersClosed m hm
  have hd : n.invRoleNames = true := by
    unfold Network.invRoleNames
    rw [values_names_eq_keys n.roles wf.roleNameKey]
    exact distinctStrings_of_nodup _ wf.rolesKeysNodup
  simp [Network.claimInvC1, ha, hb, hc, hd]

theorem matchesUpperFormat_iff (s : String) :
    matchesUpperFormat s = true ↔ specUpperFormat s := by
  simp [matchesUpperFormat, specUpperFormat, List.all_eq_true,
    List.isEmpty_iff]

/-! ### Claim theorems -/

/-- C1, counterexample. The claim states that after every successful
mutator call the roles map contains a role named `ADMIN` with the
read/write/delete-on-`ALL` permissions (a), the admin is mapped to the
`ADMIN` role (b), etc. On a freshly constructed network, the single
successful call `updateRole("ADMIN", Role("NURSE", []))` destroys (a);
alternatively, after `addRole(NURSE)`, the successful call
`assignRoleToUser(admin, "NURSE")` destroys (b), after which
`removeRole("ADMIN")` even succeeds and deletes the `ADMIN` role. -/
theorem c1_counterexample :
    Network.construct "n1" "WardA" (some ⟨"u1"⟩) 0 = .ok netA ∧
    Role.construct "NURSE" [] = .ok nurseRole ∧
    netA.updateRole "ADMIN" nurseRole 1 = .ok netB ∧
    netB.invAdminRole = false ∧
    netA.addRole nurseRole 1 = .ok netC ∧
    netC.assignRoleToUser ⟨"u1"⟩ "NURSE" 2 = .ok netD ∧
    netD.invAdminMember = false ∧
    netD.removeRole "ADMIN" 3 = .ok netE ∧
    netE.invAdminRole = false := by
  decide

/-- C1 (amended): for every sequence of successful mutator calls that
contains no `updateRole` call and no `assignRoleToUser` call aimed at the
admin user, after each call (a) a role named `ADMIN` with at least the
read/write/delete-on-`ALL` permissions exists, (b) `adminId` is a member
mapped to `ADMIN`, (c) every member's role name is a key of `roles`, and
(d) role names are unique. -/
theorem c1_invariants_amended (uuid nm : String) (a : User) (now : Nat)
    (n0 : Network) (h0 : Network.construct uuid nm (some a) now = .ok n0)
    (cs : List MCall) (hcs : ∀ c ∈ cs, c.allowedC1 n0.adminId = true)
    (n : Network) (h : n0.runCalls cs = .ok n) :
    n.claimInvC1 = true := by
  have hwf := Network.construct_netWF uuid nm a now n0 h0
  exact Network.claimInv_of_netWF
    (Network.NetWF.runCalls_pres cs hwf.1 hcs h).1

/-- Witness for the amended C1 theorem: a concrete constructed network,
two allowed calls, and the invariant evaluated on the result. -/
theorem c1_invariants_amended_witness : Network.claimInvC1 netNurse = true :=
  c1_invariants_amended "n1" "WardA" ⟨"u1"⟩ 0 netA (by decide)
    [.addRole nurseRole 1, .addMember ⟨"u2"⟩ "NURSE" 2] (by decide)
    netNurse (by decide)

/-- C2: `canUser` returns false (it does not throw) when the user is not
a member or the member's stored role id is no longer a key of `roles`;
otherwise it is true exactly when the found role stores a permission
structurally equal to the requested one. There is no wildcard semantics:
on a reachable network where `u2` holds a role whose only permission is
`READ` on `ALL`, `canUser(u2, Permission("READ", "PATIENT_FILE"))` is
false. -/
theorem c2_canUser (n : Network) (u : User) (p : Permission) :
    (n.members.get u.uuid = none → n.canUser u p = false) ∧
    (∀ m, n.members.get u.uuid = some m → n.roles.get m.roleId = none →
        n.canUser u p = false) ∧
    (∀ m r, n.members.get u.uuid = some m → n.roles.get m.roleId = some r →
        (n.canUser u p = true ↔ p ∈ r.permissions)) ∧
    (Role.construct "VIEWER" [⟨"READ", "ALL"⟩] = .ok viewerRole ∧
      netA.addRole viewerRole 1 = .ok netV ∧
      netV.addMember ⟨"u2"⟩ "VIEWER" 2 = .ok netV2 ∧
      netV2.canUser ⟨"u2"⟩ ⟨"READ", "PATIENT_FILE"⟩ = false) := by
  refine ⟨?_, ?_, ?_, by decide⟩
  · intro h
    simp [Network.canUser, h]
  · intro m h1 h2
    simp [Network.canUser, h1, h2]
  · intro m r h1 h2
    simp [Network.canUser, h1, h2, Role.hasPermission_iff]

/-- Witness for C2: a non-member yields false. -/
theorem c2_canUser_witness :
    netA.canUser ⟨"zz"⟩ ⟨"READ", "ALL"⟩ = false :=
  (c2_canUser netA ⟨"zz"⟩ ⟨"READ", "ALL"⟩).1 (by decide)

/-- C3: the constructor rejects an empty name with `EMPTY_NAME`, then a
missing admin with `MISSING_ADMIN`; on success the state is exactly one
`ADMIN` role with the three `ALL` permissions, the admin as its only
member, no resources, and both timestamps equal to now. -/
theorem c3_construct (uuid nm : String) (admin : Option User) (now : Nat) :
    (nm = "" → Network.construct uuid nm admin now =
        .error (.network .EMPTY_NAME)) ∧
    (nm ≠ "" → admin = none → Network.construct uuid nm admin now =
        .error (.network .MISSING_ADMIN)) ∧
    (∀ a, nm ≠ "" → admin = some a → Network.construct uuid nm admin now =
        .ok { uuid := uuid, name := nm, adminId := a.uuid
              members := [(a.uuid, ⟨a.uuid, "ADMIN"⟩)]
              roles := [("ADMIN", ⟨"ADMIN",
                [⟨"READ", "ALL"⟩, ⟨"WRITE", "ALL"⟩, ⟨"DELETE", "ALL"⟩]⟩)]
              resources := []
              createdAt := now, updatedAt := now }) := by
  refine ⟨?_, ?_, ?_⟩
  · intro h
    subst h
    rfl
  · intro h1 h2
    subst h2
    unfold Network.construct
    rw [if_neg h1]
  · intro a h1 h2
    subst h2
    exact Network.construct_ok uuid nm a now h1

/-- Witness for C3: Scenario A at concrete inputs. -/
theorem c3_construct_witness :
    Network.construct "n1" "WardA" (some ⟨"u1"⟩) 0 =
      .ok { uuid := "n1", name := "WardA", adminId := "u1"
            members := [("u1", ⟨"u1", "ADMIN"⟩)]
            roles := [("ADMIN", ⟨"ADMIN",
              [⟨"READ", "ALL"⟩, ⟨"WRITE", "ALL"⟩, ⟨"DELETE", "ALL"⟩]⟩)]
            resources := []
            createdAt := 0, updatedAt := 0 } :=
  (c3_construct "n1" "WardA" (some ⟨"u1"⟩) 0).2.2 ⟨"u1"⟩ (by decide) rfl

/-- C4: `removeRole` throws `ROLE_NOT_FOUND` exactly when the name is not
a key of `roles`; otherwise it throws `ROLE_IN_USE` exactly when some
member is assigned that role name; otherwise it removes exactly that
entry and bumps `updatedAt`, leaving members and resources untouched.
Scenario B holds: after `addRole(NURSE)` and `addMember(u2, "NURSE")`,
`removeRole("NURSE")` throws `ROLE_IN_USE`. -/
theorem c4_removeRole (n : Network) (roleName : String) (now : Nat) :
    (n.removeRole roleName now = .error (.role .ROLE_NOT_FOUND, n) ↔
        n.roles.has roleName = false) ∧
    (n.removeRole roleName now = .error (.role .ROLE_IN_USE, n) ↔
        n.roles.has roleName = true ∧
          ∃ m ∈ n.members.values, m.roleId = roleName) ∧
    (n.roles.has roleName = true →
        (∀ m ∈ n.members.values, m.roleId ≠ roleName) →
        n.removeRole roleName now =
          .ok { n with roles := n.roles.del roleName, updatedAt := now }) ∧
    (∀ n', n.removeRole roleName now = .ok n' →
        n'.roles.get roleName = none ∧
        (∀ k, k ≠ roleName → n'.roles.get k = n.roles.get k) ∧
        n'.members = n.members ∧ n'.resources = n.resources ∧
        n'.createdAt = n.createdAt ∧ n'.updatedAt = now) ∧
    (netA.addRole nurseRole 1 = .ok netC ∧
      netC.addMember ⟨"u2"⟩ "NURSE" 2 = .ok netNurse ∧
      netNurse.members.get "u2" = some ⟨"u2", "NURSE"⟩ ∧
      netNurse.removeRole "NURSE" 3 = .error (.role .ROLE_IN_USE, netNurse)) := by
  refine ⟨?_, ?_, ?_, ?_, by decide⟩
  · cases hh : n.roles.has roleName with
    | false => simp [Network.removeRole, hh]
    | true =>
        cases hu : n.members.values.any (fun m => m.roleId = roleName) with
        | true => simp [Network.removeRole, hh, hu]
        | false => simp [Network.removeRole, hh, hu]
  · cases hh : n.roles.has roleName with
    | false => simp [Network.removeRole, hh]
    | true =>
        cases hu : n.members.values.any (fun m => m.roleId = roleName) with
        | true =>
            simp only [Network.removeRole, hh, hu, Bool.not_true,
              Bool.false_eq_true, if_false, if_true, eq_self_iff_true,
              true_iff, true_and]
            simpa [List.any_eq_true] using hu
        | false =>
            simp only [Network.removeRole, hh, hu, Bool.not_true,
              Bool.false_eq_true, if_false]
            constructor
            · intro h
              cases h
            · rintro ⟨-, m, hm, he⟩
              have htrue : (n.members.values.any
                  fun x => x.roleId = roleName) = true :=
                List.any_eq_true.2 ⟨m, hm, by simp [he]⟩
              rw [hu] at htrue
              cases htrue
  · intro hh hu
    have hany : (n.members.values.any fun m => m.roleId = roleName) = false := by
      cases hval : n.members.values.any fun m => m.roleId = roleName with
      | false => rfl
      | true =>
          rcases List.any_eq_true.1 hval with ⟨m, hm, he⟩
          simp only [decide_eq_true_eq] at he
          exact absurd he (hu m hm)
    simp [Network.removeRole, hh, hany]
  · intro n' h
    cases hh : n.roles.has roleName with
    | false => simp [Network.removeRole, hh] at h
    | true =>
        cases hu : n.members.values.any (fun m => m.roleId = roleName) with
        | true => simp [Network.removeRole, hh, hu] at h
        | false =>
            simp only [Network.removeRole, hh, hu, Bool.not_true,
              Bool.false_eq_true, if_false, Except.ok.injEq] at h
            subst h
            refine ⟨JMap.get_del_self _ _, ?_, rfl, rfl, rfl, rfl⟩
            intro k hk
            exact JMap.get_del_ne _ _ _ (fun he => hk he.symm)

/-- Witness for C4: removing an absent role on a concrete network throws
`ROLE_NOT_FOUND`. -/
theorem c4_removeRole_witness :
    netA.removeRole "NURSE" 5 = .error (.role .ROLE_NOT_FOUND, netA) :=
  (c4_removeRole netA "NURSE" 5).1.mpr (by decide)

theorem removePermission_filter_eq (r : Role) (p : Permission) :
    r.permissions.filter (fun q => !(q.equals p)) =
      r.permissions.filter (fun q => decide (q ≠ p)) := by
  refine List.filter_congr ?_
  intro q _
  by_cases hq : q = p
  · subst hq
    simp [Permission.equals_iff]
  · cases heq : q.equals p
    · simp [hq, heq]
    · exact absurd (Permission.equals_iff q p |>.1 heq) hq

/-- C5, counterexample. The claim states that `removePermission` removes
exactly one structurally-equal match, leaving other duplicates (which
`replacePermissions` admits without dedup validation) untouched. In fact
the implementation filters out every structural match: on a role holding
two copies of `READ`-on-`ALL`, one `removePermission` leaves zero copies
rather than one. -/
theorem c5_counterexample :
    Role.construct "X" [] = .ok (Role.mk "X" []) ∧
    (Role.mk "X" []).replacePermissions [⟨"READ", "ALL"⟩, ⟨"READ", "ALL"⟩] =
      Role.mk "X" [⟨"READ", "ALL"⟩, ⟨"READ", "ALL"⟩] ∧
    (Role.mk "X" [⟨"READ", "ALL"⟩, ⟨"READ", "ALL"⟩]).removePermission
        ⟨"READ", "ALL"⟩ = .ok (Role.mk "X" []) ∧
    Role.mk "X" [] ≠ Role.mk "X" [⟨"READ", "ALL"⟩] := by
  decide

/-- C5 (amended): `removePermission` throws `PERMISSION_NOT_FOUND`
exactly when no structurally-equal permission is stored; otherwise it
removes every structurally-equal match, keeping exactly the stored
permissions different from the argument, in order. -/
theorem c5_removePermission (r : Role) (p : Permission) :
    (r.removePermission p = .error .PERMISSION_NOT_FOUND ↔
        p ∉ r.permissions) ∧
    (p ∈ r.permissions →
        r.removePermission p =
          .ok ⟨r.name, r.permissions.filter (fun q => decide (q ≠ p))⟩) := by
  have hmem_of_len :
      (r.permissions.filter (fun q => !(q.equals p))).length =
        r.permissions.length → p ∉ r.permissions := by
    intro hlen hp
    have heq := (List.filter_sublist
      (l := r.permissions) (p := fun q => !(q.equals p))).eq_of_length hlen
    have hf := List.mem_filter.1 (heq.symm ▸ hp)
    rw [Permission.equals_iff p p |>.2 rfl] at hf
    simp at hf
  have hlen_of_not :
      p ∉ r.permissions →
        (r.permissions.filter (fun q => !(q.equals p))).length =
          r.permissions.length := by
    intro hp
    rw [List.filter_eq_self.2]
    intro q hq
    by_cases he : q = p
    · exact absurd (he ▸ hq) hp
    · simp only [Bool.not_eq_true']
      cases heq : q.equals p
      · rfl
      · exact absurd (Permission.equals_iff q p |>.1 heq) he
  constructor
  · constructor
    · intro h
      by_cases hlen : (r.permissions.filter
          (fun q => !(q.equals p))).length = r.permissions.length
      · exact hmem_of_len hlen
      · simp [Role.removePermission, hlen] at h
    · intro hp
      simp [Role.removePermission, hlen_of_not hp]
  · intro hp
    have hlen : ¬ (r.permissions.filter
        (fun q => !(q.equals p))).length = r.permissions.length :=
      fun hl => hmem_of_len hl hp
    simp only [Role.removePermission, if_neg hlen, Except.ok.injEq]
    rw [removePermission_filter_eq]

/-- Witness for C5: removing the single stored copy keeps the rest. -/
theorem c5_removePermission_witness :
    (Role.mk "X" [⟨"READ", "ALL"⟩, ⟨"WRITE", "ALL"⟩]).removePermission
        ⟨"READ", "ALL"⟩ = .ok (Role.mk "X" [⟨"WRITE", "ALL"⟩]) := by
  rw [(c5_removePermission (Role.mk "X" [⟨"READ", "ALL"⟩, ⟨"WRITE", "ALL"⟩])
    ⟨"READ", "ALL"⟩).2 (by decide)]
  decide

theorem Permission.construct_ok_inv (action resource : String)
    (p : Permission) (h : Permission.construct action resource = .ok p) :
    action ≠ "" ∧
      matchesUpperFormat (jsTrim (jsToUpperCase action)) = true ∧
      resource ≠ "" ∧
      matchesUpperFormat (jsTrim (jsToUpperCase resource)) = true := by
  by_cases ha : action = ""
  · simp [Permission.construct, Permission.validateAction, ha, Bind.bind, Except.bind] at h
  · cases hfa : matchesUpperFormat (jsTrim (jsToUpperCase action)) with
    | false =>
        simp [Permission.construct, Permission.validateAction, ha, hfa, Bind.bind, Except.bind] at h
    | true =>
        by_cases hr : resource = ""
        · simp [Permission.construct, Permission.validateAction,
            Permission.validateResource, ha, hfa, hr, Bind.bind,
            Except.bind, Functor.map, Except.map] at h
        · cases hfr : matchesUpperFormat (jsTrim (jsToUpperCase resource)) with
          | false =>
              simp [Permission.construct, Permission.validateAction,
                Permission.validateResource, ha, hfa, hr, hfr, Bind.bind,
                Except.bind, Functor.map, Except.map] at h
          | true => exact ⟨ha, rfl, hr, rfl⟩

/-- C6: constructing a `Permission` throws exactly when the action or
resource is empty, or its trimmed upper-casing does not fully match the
pattern `[A-Z_]+`; in particular `Permission("read file", r)` throws
`INVALID_ACTION_FORMAT` for every resource `r`, and `Permission("", r)`
throws the empty-action error. -/
theorem c6_permission_validation (action resource : String) :
    ((∃ e, Permission.construct action resource = .error e) ↔
        action = "" ∨ resource = "" ∨
          ¬ specUpperFormat (jsTrim (jsToUpperCase action)) ∨
          ¬ specUpperFormat (jsTrim (jsToUpperCase resource))) ∧
    Permission.construct "read file" resource =
      .error .INVALID_ACTION_FORMAT ∧
    Permission.construct "" resource = .error .EMPTY_ACTION := by
  refine ⟨⟨?_, ?_⟩, rfl, rfl⟩
  · rintro ⟨e, he⟩
    by_contra hno
    push_neg at hno
    obtain ⟨ha, hr, hfa, hfr⟩ := hno
    have hfa2 : matchesUpperFormat (jsTrim (jsToUpperCase action)) = true :=
      (matchesUpperFormat_iff _).2 hfa
    have hfr2 : matchesUpperFormat (jsTrim (jsToUpperCase resource)) = true :=
      (matchesUpperFormat_iff _).2 hfr
    simp [Permission.construct, Permission.validateAction,
      Permission.validateResource, ha, hr, hfa2, hfr2, Bind.bind,
      Except.bind, Functor.map, Except.map, Pure.pure, Except.pure] at he
  · intro h
    cases hres : Permission.construct action resource with
    | error e => exact ⟨e, rfl⟩
    | ok p =>
        obtain ⟨ha, hfa, hr, hfr⟩ :=
          Permission.construct_ok_inv action resource p hres
        rcases h with h | h | h | h
        · exact absurd h ha
        · exact absurd h hr
        · exact absurd ((matchesUpperFormat_iff _).1 hfa) h
        · exact absurd ((matchesUpperFormat_iff _).1 hfr) h

/-- C7, counterexample. The claim states that on success `addMember`
inserts the mapping user to the case-normalized role-name argument. On a
reachable network where `updateRole("NURSE", Role("DOCTOR", []))` left a
role named `DOCTOR` under the key `NURSE`, the successful call
`addMember(u2, "NURSE")` records role id `DOCTOR`, not the normalized
argument `NURSE`. -/
theorem c7_counterexample :
    netA.addRole nurseRole 1 = .ok netC ∧
    Role.construct "DOCTOR" [] = .ok docRole ∧
    netC.updateRole "NURSE" docRole 2 = .ok netCD ∧
    netCD.addMember ⟨"u2"⟩ "NURSE" 3 = .ok netCD2 ∧
    netCD2.members.get "u2" = some ⟨"u2", "DOCTOR"⟩ ∧
    jsToUpperCase "NURSE" = "NURSE" ∧
    netCD2.members.get "u2" ≠ some ⟨"u2", jsToUpperCase "NURSE"⟩ := by
  decide

/-- C7 (amended): `addMember` throws `USER_ALREADY_IN_NETWORK` exactly
when the user id is already a member key; otherwise it throws
`ROLE_NOT_FOUND` exactly when the upper-cased role name is not a key of
`roles`; otherwise it inserts the user mapped to the name carried by the
role found under that key (equal to the normalized argument whenever
roles sit under their own names), bumps `updatedAt` and leaves every
other member, the roles and the resources unchanged. -/
theorem c7_addMember (n : Network) (u : User) (roleName : String)
    (now : Nat) :
    (n.addMember u roleName now =
        .error (.network .USER_ALREADY_IN_NETWORK, n) ↔
      n.members.has u.uuid = true) ∧
    (n.addMember u roleName now = .error (.role .ROLE_NOT_FOUND, n) ↔
      n.members.has u.uuid = false ∧
        n.roles.get (jsToUpperCase roleName) = none) ∧
    (∀ role, n.members.has u.uuid = false →
        n.roles.get (jsToUpperCase roleName) = some role →
        ∃ n', n.addMember u roleName now = .ok n' ∧
          n'.members.get u.uuid = some ⟨u.uuid, role.name⟩ ∧
          (∀ k, k ≠ u.uuid → n'.members.get k = n.members.get k) ∧
          n'.roles = n.roles ∧ n'.resources = n.resources ∧
          n'.adminId = n.adminId ∧ n'.createdAt = n.createdAt ∧
          n'.updatedAt = now) := by
  refine ⟨?_, ?_, ?_⟩
  · cases hh : n.members.has u.uuid with
    | true => simp [Network.addMember, hh]
    | false =>
        cases hg : n.roles.get (jsToUpperCase roleName) with
        | none => simp [Network.addMember, hh, hg]
        | some role => simp [Network.addMember, hh, hg]
  · cases hh : n.members.has u.uuid with
    | true => simp [Network.addMember, hh]
    | false =>
        cases hg : n.roles.get (jsToUpperCase roleName) with
        | none => simp [Network.addMember, hh, hg]
        | some role => simp [Network.addMember, hh, hg]
  · intro role hh hg
    refine ⟨{ n with members := n.members.set u.uuid ⟨u.uuid, role.name⟩, updatedAt := now }, ?_, ?_, ?_, rfl, rfl, rfl, rfl, rfl⟩
    · simp [Network.addMember, hh, hg]
    · exact JMap.get_set_self _ _ _
    · intro k hk
      exact JMap.get_set_ne _ _ _ _ (fun he => hk he.symm)

/-- Witness for the amended C7 theorem on Scenario B's network. -/
theorem c7_addMember_witness :
    ∃ n', netC.addMember ⟨"u2"⟩ "nurse" 2 = .ok n' ∧
      n'.members.get "u2" = some ⟨"u2", "NURSE"⟩ ∧
      (∀ k, k ≠ "u2" → n'.members.get k = netC.members.get k) ∧
      n'.roles = netC.roles ∧ n'.resources = netC.resources ∧
      n'.adminId = netC.adminId ∧ n'.createdAt = netC.createdAt ∧
      n'.updatedAt = 2 :=
  (c7_addMember netC ⟨"u2"⟩ "nurse" 2).2.2 nurseRole (by decide) (by decide)

/-- C8: `removeMember` throws `CANNOT_REMOVE_ADMIN` exactly when the user
is the admin (this guard runs before the membership check), otherwise
`USER_NOT_FOUND` exactly when the user is not a member; otherwise it
removes exactly that member and bumps `updatedAt`. Every throw carries
the aggregate state unchanged. Scenario C holds on a concrete network. -/
theorem c8_removeMember (n : Network) (u : User) (now : Nat) :
    (n.removeMember u now = .error (.network .CANNOT_REMOVE_ADMIN, n) ↔
        u.uuid = n.adminId) ∧
    (n.removeMember u now = .error (.network .USER_NOT_FOUND, n) ↔
        u.uuid ≠ n.adminId ∧ n.members.has u.uuid = false) ∧
    (∀ n', n.removeMember u now = .ok n' →
        u.uuid ≠ n.adminId ∧ n'.members.get u.uuid = none ∧
        (∀ k, k ≠ u.uuid → n'.members.get k = n.members.get k) ∧
        n'.roles = n.roles ∧ n'.resources = n.resources ∧
        n'.createdAt = n.createdAt ∧ n'.updatedAt = now) ∧
    (∀ e n', n.removeMember u now = .error (e, n') → n' = n) ∧
    netA.removeMember ⟨"u1"⟩ 9 = .error (.network .CANNOT_REMOVE_ADMIN, netA)
    := by
  refine ⟨?_, ?_, ?_, ?_, by decide⟩
  · by_cases ha : u.uuid = n.adminId
    · simp [Network.removeMember, ha]
    · cases hh : n.members.has u.uuid with
      | false => simp [Network.removeMember, ha, hh]
      | true => simp [Network.removeMember, ha, hh]
  · by_cases ha : u.uuid = n.adminId
    · simp [Network.removeMember, ha]
    · cases hh : n.members.has u.uuid with
      | false => simp [Network.removeMember, ha, hh]
      | true => simp [Network.removeMember, ha, hh]
  · intro n' h
    by_cases ha : u.uuid = n.adminId
    · simp [Network.removeMember, ha] at h
    · cases hh : n.members.has u.uuid with
      | false => simp [Network.removeMember, ha, hh] at h
      | true =>
          simp only [Network.removeMember, if_neg ha, hh, Bool.not_true,
            Bool.false_eq_true, if_false, Except.ok.injEq] at h
          subst h
          refine ⟨ha, JMap.get_del_self _ _, ?_, rfl, rfl, rfl, rfl⟩
          intro k hk
          exact JMap.get_del_ne _ _ _ (fun he => hk he.symm)
  · intro e n' h
    by_cases ha : u.uuid = n.adminId
    · simp only [Network.removeMember, if_pos ha, Except.error.injEq,
        Prod.mk.injEq] at h
      exact h.2.symm
    · cases hh : n.members.has u.uuid with
      | false =>
          simp only [Network.removeMember, if_neg ha, hh, Bool.not_false,
            if_true, Except.error.injEq, Prod.mk.injEq] at h
          exact h.2.symm
      | true =>
          simp [Network.removeMember, ha, hh] at h

/-- Witness for C8: removing an ordinary member succeeds and leaves the
admin's entry in place. -/
theorem c8_removeMember_witness :
    ("u2" : String) ≠ netNurse.adminId ∧
    ∀ n', netNurse.removeMember ⟨"u2"⟩ 7 = .ok n' →
      n'.members.get "u2" = none ∧ n'.members.get "u1" = netNurse.members.get "u1" := by
  refine ⟨by decide, ?_⟩
  intro n' h
  have h2 := (c8_removeMember netNurse ⟨"u2"⟩ 7).2.2.1 n' h
  exact ⟨h2.2.1, h2.2.2.1 "u1" (by decide)⟩

/-- C9: `canAccessResource` returns false for an unknown resource id;
whenever the stored resource's owner is the user it returns true with no
look at membership, roles or permissions; otherwise its outcome is
exactly that of evaluating `canUser(user, Permission("READ", resourceId))`,
the `Permission` constructor's exception included. -/
theorem c9_canAccessResource (n : Network) (u : User) (rid : String) :
    (n.resources.get rid = none → n.canAccessResource u rid = .ok false) ∧
    (∀ res, n.resources.get rid = some res → res.ownerId = u.uuid →
        n.canAccessResource u rid = .ok true) ∧
    (∀ res, n.resources.get rid = some res → res.ownerId ≠ u.uuid →
        (∀ p, Permission.construct "READ" rid = .ok p →
            n.canAccessResource u rid = .ok (n.canUser u p)) ∧
        (∀ e, Permission.construct "READ" rid = .error e →
            n.canAccessResource u rid = .error (.permission e))) := by
  refine ⟨?_, ?_, ?_⟩
  · intro h
    simp [Network.canAccessResource, h]
  · intro res h1 h2
    simp [Network.canAccessResource, h1, h2]
  · intro res h1 h2
    constructor
    · intro p hp
      simp [Network.canAccessResource, h1, h2, hp]
    · intro e he
      simp [Network.canAccessResource, h1, h2, he]

/-- Witness for C9: the resource owner bypasses every permission check
even though it is not a member. -/
theorem c9_canAccessResource_witness :
    netR.canAccessResource ⟨"u3"⟩ "DOC" = .ok true :=
  (c9_canAccessResource netR ⟨"u3"⟩ "DOC").2.1 ⟨"file", "u3"⟩ (by decide)
    (by decide)

/-- C10: every throwing mutator is atomic on failure: the state carried
by a thrown domain error is exactly the state the aggregate held when
the method was entered — members, roles, resources and `updatedAt`
included. -/
theorem c10_atomicity :
    (∀ (n : Network) (role : Role) (now : Nat) (e : DomainError)
        (n' : Network), n.addRole role now = .error (e, n') → n' = n) ∧
    (∀ (n : Network) (roleName : String) (newRole : Role) (now : Nat)
        (e : DomainError) (n' : Network),
        n.updateRole roleName newRole now = .error (e, n') → n' = n) ∧
    (∀ (n : Network) (roleName : String) (now : Nat) (e : DomainError)
        (n' : Network), n.removeRole roleName now = .error (e, n') → n' = n) ∧
    (∀ (n : Network) (u : User) (roleName : String) (now : Nat)
        (e : DomainError) (n' : Network),
        n.assignRoleToUser u roleName now = .error (e, n') → n' = n) ∧
    (∀ (n : Network) (u : User) (roleName : String) (now : Nat)
        (e : DomainError) (n' : Network),
        n.addMember u roleName now = .error (e, n') → n' = n) ∧
    (∀ (n : Network) (u : User) (now : Nat) (e : DomainError)
        (n' : Network), n.removeMember u now = .error (e, n') → n' = n) ∧
    (∀ (n : Network) (rid : String) (now : Nat) (e : DomainError)
        (n' : Network), n.removeResource rid now = .error (e, n') → n' = n)
    := by
  refine ⟨?_, ?_, ?_, ?_, ?_, ?_, ?_⟩
  · intro n role now e n' h
    cases hh : n.roles.has role.name with
    | true =>
        simp only [Network.addRole, hh, if_true, Except.error.injEq,
          Prod.mk.injEq] at h
        exact h.2.symm
    | false => simp [Network.addRole, hh] at h
  · intro n roleName newRole now e n' h
    cases hh : n.roles.has roleName with
    | false =>
        simp only [Network.updateRole, hh, Bool.not_false, if_true,
          Except.error.injEq, Prod.mk.injEq] at h
        exact h.2.symm
    | true => simp [Network.updateRole, hh] at h
  · intro n roleName now e n' h
    cases hh : n.roles.has roleName with
    | false =>
        simp only [Network.removeRole, hh, Bool.not_false, if_true,
          Except.error.injEq, Prod.mk.injEq] at h
        exact h.2.symm
    | true =>
        cases hu : n.members.values.any (fun m => m.roleId = roleName) with
        | true =>
            simp only [Network.removeRole, hh, hu, Bool.not_true,
              Bool.false_eq_true, if_false, if_true, Except.error.injEq,
              Prod.mk.injEq] at h
            exact h.2.symm
        | false => simp [Network.removeRole, hh, hu] at h
  · intro n u roleName now e n' h
    cases hg : n.roles.get (jsToUpperCase roleName) with
    | none =>
        simp only [Network.assignRoleToUser, hg, Except.error.injEq,
          Prod.mk.injEq] at h
        exact h.2.symm
    | some role =>
        cases hh : n.members.has u.uuid with
        | false =>
            simp only [Network.assignRoleToUser, hg, hh, Bool.not_false,
              if_true, Except.error.injEq, Prod.mk.injEq] at h
            exact h.2.symm
        | true => simp [Network.assignRoleToUser, hg, hh] at h
  · intro n u roleName now e n' h
    cases hh : n.members.has u.uuid with
    | true =>
        simp only [Network.addMember, hh, if_true, Except.error.injEq,
          Prod.mk.injEq] at h
        exact h.2.symm
    | false =>
        cases hg : n.roles.get (jsToUpperCase roleName) with
        | none =>
            simp only [Network.addMember, hh, hg, Bool.false_eq_true,
              if_false, Except.error.injEq, Prod.mk.injEq] at h
            exact h.2.symm
        | some role => simp [Network.addMember, hh, hg] at h
  · intro n u now e n' h
    by_cases ha : u.uuid = n.adminId
    · simp only [Network.removeMember, if_pos ha, Except.error.injEq,
        Prod.mk.injEq] at h
      exact h.2.symm
    · cases hh : n.members.has u.uuid with
      | false =>
          simp only [Network.removeMember, if_neg ha, hh, Bool.not_false,
            if_true, Except.error.injEq, Prod.mk.injEq] at h
          exact h.2.symm
      | true => simp [Network.removeMember, ha, hh] at h
  · intro n rid now e n' h
    cases hh : n.resources.has rid with
    | false =>
        simp only [Network.removeResource, hh, Bool.not_false, if_true,
          Except.error.injEq, Prod.mk.injEq] at h
        exact h.2.symm
    | true => simp [Network.removeResource, hh] at h

/-- Witness for C10: a duplicate `addRole` throws and leaves the concrete
network exactly as it was. -/
theorem c10_atomicity_witness : netA = netA :=
  c10_atomicity.1 netA adminDefaultRole 5 (.role .DUPLICATE_ROLE) netA
    (by decide)
